import Mathlib

/-!
# Verification of the Legal Documentation Assistant retrieval/extraction pipeline

This file gives a shallow embedding in Lean 4 of the core pipeline of the
repository (`server/document_retrieval.py`, `server/document_embedding.py`,
`server/chatbot_model.py`, and the query endpoint of `server/app.py`), and
proves or refutes the frozen specification claims about it.

Modelling conventions:
* Python floats (distances, similarities, logits) are modelled as rationals `ℚ`.
* Python exceptions are modelled with `Except String`: a raised exception is an
  `.error` value; a `try/except` block is a `match` on that value.
* External collaborators (the ChromaDB collection and the RoBERTa
  tokenizer/model, including `torch.topk`) are parameters of the embedded
  functions; their contracts come from the spec where their behaviour matters.
* Python `str.strip` is modelled by `pyStrip` (drop leading/trailing
  whitespace).
-/

/-- Python `str.strip()`: remove leading and trailing whitespace characters. -/
def pyStrip (s : String) : String :=
  ⟨((s.data.dropWhile Char.isWhitespace).reverse.dropWhile Char.isWhitespace).reverse⟩

/-- Helper for `pySplitNl`: the accumulator holds the current part reversed. -/
def pySplitNlAux : List Char → List Char → List String
  | [], acc => [⟨acc.reverse⟩]
  | c :: rest, acc =>
    if c = '\n' then ⟨acc.reverse⟩ :: pySplitNlAux rest []
    else pySplitNlAux rest (c :: acc)

/-- Python `str.split('\n')`: split on every newline, keeping empty parts
(`"".split('\n') == ['']`, `"a\n".split('\n') == ['a', '']`). -/
def pySplitNl (s : String) : List String := pySplitNlAux s.data []

/-- Metadata dictionaries: string keys mapped to scalar (string) values. -/
abbrev Metadata := List (String × String)

/-! ## The ChromaDB query-result shape

`collection.query(query_texts=[q], n_results=top_k)` returns parallel arrays,
one inner list per query text.  Since the code always passes exactly one query
text and immediately indexes `[0]`, we model the single inner list of each
field.  `metadatas` and `distances` are optional keys in the result dict. -/

structure QueryResults where
  ids : List String
  documents : List String
  metadatas : Option (List Metadata)
  distances : Option (List ℚ)
deriving DecidableEq

/-- A retrieval match (`document_retrieval.retrieve_documents` result entry). -/
structure Match where
  id : String
  text : String
  metadata : Metadata
  similarity : ℚ
  raw_distance : Option ℚ
deriving DecidableEq

/-- The result envelope of `retrieve_documents`: a match list (the Python dict
key `"matches"`; `matches` is a reserved word in Lean so the field is called
`matchList`), plus an error marker when an exception was caught. -/
structure RetrievalResult where
  matchList : List Match
  error : Option String
deriving DecidableEq

/-- `1 - distances[i]` when the `distances` key is present and `i` is in
range, as in the guarded similarity computation of `retrieve_documents`. -/
def simAt (res : QueryResults) (i : Nat) : Option ℚ :=
  match res.distances with
  | some ds =>
    match ds.get? i with
    | some d => some (1 - d)
    | none => none
  | none => none

/-- The `continue` guard of the loop in `retrieve_documents`: skip entry `i`
when a distance is available and the derived similarity is below threshold. -/
def skipAt (res : QueryResults) (thr : ℚ) (i : Nat) : Bool :=
  match simAt res i with
  | some s => decide (s < thr)
  | none => false

/-- `results['metadatas'][0][i]` guarded as in the source: `{}` when the key
is absent or the index is out of range. -/
def metaAt (res : QueryResults) (i : Nat) : Metadata :=
  match res.metadatas with
  | some ms => (ms.get? i).getD []
  | none => []

/-- The body of the `for i, doc_id in enumerate(results['ids'][0])` loop of
`retrieve_documents`, building the (unsorted) match list.  Indexing
`results['documents'][0][i]` is unguarded in the source, so an out-of-range
index raises `IndexError`, modelled as `.error`. -/
def buildMatchesAux (res : QueryResults) (thr : ℚ) : Nat → List String → Except String (List Match)
  | _, [] => .ok []
  | i, docId :: rest =>
    if skipAt res thr i then buildMatchesAux res thr (i + 1) rest
    else
      match res.documents.get? i with
      | none => .error "list index out of range"
      | some dt =>
        let md := metaAt res i
        let dt2 := if dt = "" then
            match List.lookup "text" md with
            | some t => t
            | none => dt
          else dt
        match buildMatchesAux res thr (i + 1) rest with
        | .error e => .error e
        | .ok ms =>
          .ok (⟨docId, dt2, md, (simAt res i).getD 0,
                res.distances.bind (fun ds => ds.get? i)⟩ :: ms)

/-! ## Stable descending sort

`matches.sort(key=lambda x: x['similarity'], reverse=True)` is Python's stable
Timsort.  A stable sort by a key is extensionally unique, so we embed it as a
stable insertion sort by descending similarity. -/

/-- Insert a match into a descending-sorted list, after all entries of
greater-or-equal similarity (Python's stable `reverse=True` sort order). -/
def insertDesc (x : Match) : List Match → List Match
  | [] => [x]
  | y :: ys => if y.similarity < x.similarity then x :: y :: ys else y :: insertDesc x ys

/-- Stable sort by similarity, descending (Python `list.sort(key=..., reverse=True)`). -/
def sortDesc (l : List Match) : List Match :=
  l.foldl (fun acc x => insertDesc x acc) []

/-- The descending-similarity ordering between matches. -/
def simGE (a b : Match) : Prop := b.similarity ≤ a.similarity

/-- `retrieve_documents` up to (but not including) the final sort: the match
list in the store's return order. -/
def retrieveUnsorted (storeQuery : String → Nat → Except String QueryResults)
    (query : String) (top_k : Nat) (similarity_threshold : ℚ) : RetrievalResult :=
  if query = "" then ⟨[], none⟩
  else
    match storeQuery query top_k with
    | .error e => ⟨[], some e⟩
    | .ok res =>
      if res.documents.isEmpty then ⟨[], none⟩
      else
        match buildMatchesAux res similarity_threshold 0 res.ids with
        | .error e => ⟨[], some e⟩
        | .ok ms => ⟨ms, none⟩

/-- `document_retrieval.retrieve_documents`, with the ChromaDB collection's
`query` method passed in as `storeQuery`.  An exception raised anywhere inside
the `try` block yields `{"matches": [], "error": str(e)}`. -/
def retrieve_documents (storeQuery : String → Nat → Except String QueryResults)
    (query : String) (top_k : Nat) (similarity_threshold : ℚ) : RetrievalResult :=
  let r := retrieveUnsorted storeQuery query top_k similarity_threshold
  ⟨sortDesc r.matchList, r.error⟩

/-! ## The chunk store (`document_embedding.py`)

The ChromaDB collection itself is an external collaborator whose code is not
in this repository; its contract is taken from the spec. -/

/-- A stored chunk: id, text and metadata. -/
structure Chunk where
  id : String
  text : String
  metadata : Metadata
deriving DecidableEq

/-- Modelled from the spec: `collection.add` of the external ChromaDB
collection, whose implementation is not part of this repository.  Spec §4.1
and §3: the store "adds or overwrites chunks" keyed by id, with "id uniqueness
enforced by the store; re-adding the same id overwrites the chunk (upsert
semantics)".  We model the collection state as a list of chunks and `add` as
remove-then-append for each (id, text, metadata) triple. -/
def collectionAdd (store : List Chunk) (ids texts : List String)
    (metadatas : List Metadata) : List Chunk :=
  (ids.zip (texts.zip metadatas)).foldl
    (fun st p => st.filter (fun ch => ch.id != p.1) ++ [⟨p.1, p.2.1, p.2.2⟩]) store

/-- `document_embedding.upsert_embeddings`: validates `texts`, generates
sequential ids (`doc_i`) and default metadata when absent (Python truthiness:
`None` and the empty list both count as absent), then calls `collection.add`.
Returns the new store state along with the boolean success status. -/
def upsert_embeddings (store : List Chunk) (texts : List String)
    (metadatas : Option (List Metadata)) (ids : Option (List String)) :
    List Chunk × Bool :=
  if texts.isEmpty then (store, false)
  else
    let ids2 := match ids with
      | some (i :: irest) => i :: irest
      | _ => (List.range texts.length).map (fun i => "doc_" ++ toString i)
    let metadatas2 := match metadatas with
      | some (mm :: mrest) => mm :: mrest
      | _ => texts.map (fun _ => [("source", "unknown")])
    (collectionAdd store ids2 texts metadatas2, true)

/-! ## The span extractor (`chatbot_model.EnhancedQAModel`) -/

/-- Documents handled by `process_query`: dicts built by
`EnhancedQAModel.retrieve_documents` (which always carry the `text`,
`metadata`, `distance` and `id` keys) or plain strings supplied by a caller. -/
inductive PyDoc where
  | dict (text : String) (metadata : Metadata) (distance : ℚ) (id : String)
  | str (s : String)
deriving DecidableEq

/-- The text-extraction dispatch of `process_query`: `doc['text']` for dicts,
the string itself for strings. -/
def docText : PyDoc → String
  | .dict t _ _ _ => t
  | .str s => s

/-- One forward pass of the scoring model on (question, chunk): the start/end
logit vectors, the tokenized `input_ids` row, and the
`torch.topk(..., 10).indices` lists for both logit vectors.  The model and
`torch.topk` are external collaborators, so all five are
collaborator-supplied. -/
structure ForwardOut where
  start_logits : List ℚ
  end_logits : List ℚ
  input_ids : List Nat
  topkStart : List Nat
  topkEnd : List Nat
deriving DecidableEq

/-- The external tokenizer/model collaborator of `EnhancedQAModel`:
`tokenizer.encode(·, add_special_tokens=False)`,
`tokenizer.decode(·, skip_special_tokens=True)`, and the tokenize+forward
pass on a (question, chunk) pair, which may raise. -/
structure QAModel where
  encode : String → List Nat
  decode : List Nat → String
  forward : String → String → Except String ForwardOut

/-- An answer-result dict produced by `answer_question` / `process_query`:
keys `answer`, `confidence`, `has_answer`; `source_documents` models an
optional extra key (`none` = key absent from the dict). -/
structure QAResult where
  answer : String
  confidence : ℚ
  has_answer : Bool
  source_documents : Option (List PyDoc)
deriving DecidableEq

/-- The fixed result for empty/too-short context. -/
def noContextResult : QAResult :=
  ⟨"No context provided to answer the question.", 0, false, none⟩

/-- The fixed result when no valid span was found in any chunk. -/
def noAnswerResult : QAResult :=
  ⟨"I couldn\x27t find an answer to your question in the provided documents.", 0, false, none⟩

/-- The fixed result of `process_query` when no documents are available. -/
def noDocsResult : QAResult :=
  ⟨"No relevant documents found to answer your question.", 0, false, none⟩

/-- The `except` branch of `answer_question`. -/
def errorAnswerResult (e : String) : QAResult :=
  ⟨"Error processing your question: " ++ e, 0, false, none⟩

/-- `max_length - len(question_tokens) - 3` with `max_length = 512`; Python
ints are unbounded and this can be negative, hence `Int`. -/
def maxContextTokens (m : QAModel) (question : String) : Int :=
  512 - ((m.encode question).length : Int) - 3

/-- The loop state of the paragraph-chunking loop of `answer_question`: the
flushed chunks (paired with the `current_length` token count they were flushed
with), the chunk being built, and its token-count accumulator. -/
structure ChunkState where
  chunks : List (String × Int)
  current_chunk : String
  current_length : Int

/-- One iteration of `for paragraph in context.split('\n')`: skip blank
paragraphs; flush the current chunk when adding the paragraph would exceed the
budget and the current chunk is non-empty; otherwise append the paragraph. -/
def stepParagraph (m : QAModel) (budget : Int) (st : ChunkState) (p : String) : ChunkState :=
  if (pyStrip p).isEmpty then st
  else
    let ptoks : Int := ((m.encode p).length : Int)
    if st.current_length + ptoks > budget ∧ st.current_chunk ≠ "" then
      ⟨st.chunks ++ [(st.current_chunk, st.current_length)], p, ptoks⟩
    else
      ⟨st.chunks, if st.current_chunk ≠ "" then st.current_chunk ++ "\n" ++ p else p,
        st.current_length + ptoks⟩

/-- The paragraph-boundary chunking of `answer_question`, each chunk paired
with the token count the loop accounted to it (the sum of its paragraphs'
token counts). -/
def contextChunksAcc (m : QAModel) (question context : String) : List (String × Int) :=
  let budget := maxContextTokens m question
  let st := (pySplitNl context).foldl (stepParagraph m budget) ⟨[], "", 0⟩
  if st.current_chunk ≠ "" then st.chunks ++ [(st.current_chunk, st.current_length)] else st.chunks

/-- The fallback hard token split
`for i in range(0, len(context_tokens), max_context_tokens)` with step
`stepPred + 1`. -/
def hardSplit (m : QAModel) (stepPred : Nat) : List Nat → List String
  | [] => []
  | t :: ts => m.decode ((t :: ts).take (stepPred + 1)) :: hardSplit m stepPred (ts.drop stepPred)
termination_by l => l.length
decreasing_by
  simp only [List.length_drop, List.length_cons]
  omega

/-- The full chunk list used by `answer_question`: paragraph chunks, or the
hard token split when no paragraph chunk was produced.  A zero `range` step
raises `ValueError`; a negative step makes `range` empty. -/
def contextChunks (m : QAModel) (question context : String) : Except String (List String) :=
  let cs := (contextChunksAcc m question context).map (fun pr => pr.1)
  if cs.isEmpty then
    let budget := maxContextTokens m question
    if 0 < budget then .ok (hardSplit m (budget.toNat - 1) (m.encode context))
    else if budget = 0 then .error "range() arg 3 must not be zero"
    else .ok []
  else .ok cs

/-- One (start, end) candidate pair of the span search: `none` when the pair
is skipped (invalid span or empty decoded answer), `some (score, text)` when
kept; logit indexing out of the vectors raises `IndexError`. -/
def pairCandidate (m : QAModel) (mal : Nat) (fo : ForwardOut) (s e : Nat) :
    Except String (Option (ℚ × String)) :=
  if e < s ∨ mal < e - s + 1 then .ok none
  else
    match fo.start_logits.get? s, fo.end_logits.get? e with
    | some sl, some el =>
      let ans := m.decode ((fo.input_ids.drop s).take (e + 1 - s))
      if (pyStrip ans).isEmpty then .ok none else .ok (some (sl + el, ans))
    | _, _ => .error "index out of bounds"

/-- The inner `for end_idx in end_indexes` loop, collecting the kept
candidates in enumeration order. -/
def innerLoop (m : QAModel) (mal : Nat) (fo : ForwardOut) (s : Nat) :
    List Nat → Except String (List (ℚ × String))
  | [] => .ok []
  | e :: es =>
    match pairCandidate m mal fo s e with
    | .error err => .error err
    | .ok c =>
      match innerLoop m mal fo s es with
      | .error err => .error err
      | .ok rest =>
        .ok (match c with
          | some p => p :: rest
          | none => rest)

/-- The outer `for start_idx in start_indexes` loop. -/
def outerLoop (m : QAModel) (mal : Nat) (fo : ForwardOut) :
    List Nat → Except String (List (ℚ × String))
  | [] => .ok []
  | s :: ss =>
    match innerLoop m mal fo s fo.topkEnd with
    | .error err => .error err
    | .ok l1 =>
      match outerLoop m mal fo ss with
      | .error err => .error err
      | .ok l2 => .ok (l1 ++ l2)

/-- All kept (score, text) candidates of one chunk: forward pass, then the
nested top-k × top-k span enumeration. -/
def chunkCandidates (m : QAModel) (mal : Nat) (question chunk : String) :
    Except String (List (ℚ × String)) :=
  match m.forward question chunk with
  | .error e => .error e
  | .ok fo => outerLoop m mal fo fo.topkStart

/-- All kept candidates across all chunks, in processing order. -/
def allCandidates (m : QAModel) (mal : Nat) (question : String) :
    List String → Except String (List (ℚ × String))
  | [] => .ok []
  | ch :: rest =>
    match chunkCandidates m mal question ch with
    | .error e => .error e
    | .ok c1 =>
      match allCandidates m mal question rest with
      | .error e => .error e
      | .ok cr => .ok (c1 ++ cr)

/-- Chunking followed by candidate enumeration: everything `answer_question`
does between the context-length guard and the best-answer fold. -/
def allCandidatesOf (m : QAModel) (question context : String) (mal : Nat) :
    Except String (List (ℚ × String)) :=
  match contextChunks m question context with
  | .error e => .error e
  | .ok chunks => allCandidates m mal question chunks

/-- The best-answer fold: start from `best_confidence = -inf` (modelled as
`none`) and update on strictly greater confidence. -/
def bestOf : Option (ℚ × String) → List (ℚ × String) → Option (ℚ × String)
  | b, [] => b
  | none, c :: rest => bestOf (some c) rest
  | some b, c :: rest => if b.1 < c.1 then bestOf (some c) rest else bestOf (some b) rest

/-- The body of `answer_question` inside its `try` block. -/
def answerQuestionCore (m : QAModel) (question context : String) (mal : Nat) :
    Except String QAResult :=
  if context = "" ∨ (pyStrip context).length < 5 then .ok noContextResult
  else
    match allCandidatesOf m question context mal with
    | .error e => .error e
    | .ok cands =>
      match bestOf none cands with
      | some bp => .ok ⟨bp.2, bp.1, true, none⟩
      | none => .ok noAnswerResult

/-- `EnhancedQAModel.answer_question` with `max_answer_length = mal`: any
exception inside the body is caught and converted to the error-message
result. -/
def answer_question (m : QAModel) (question context : String) (mal : Nat) : QAResult :=
  match answerQuestionCore m question context mal with
  | .ok r => r
  | .error e => errorAnswerResult e

/-! ## The query orchestrator (`EnhancedQAModel.process_query`) -/

/-- The body of the `for i, doc in enumerate(results['documents'][0])` loop of
`EnhancedQAModel.retrieve_documents`: the metadata/distance lookups are
guarded on key presence but not on index range, and the id lookup is
unguarded, so out-of-range indices raise `IndexError`. -/
def buildDocsAux (res : QueryResults) : Nat → List String → Except String (List PyDoc)
  | _, [] => .ok []
  | i, d :: rest =>
    match (match res.metadatas with
           | some ms =>
             match ms.get? i with
             | some mdi => Except.ok mdi
             | none => Except.error "list index out of range"
           | none => Except.ok ([] : Metadata)) with
    | .error e => .error e
    | .ok md =>
      match (match res.distances with
             | some dss =>
               match dss.get? i with
               | some dv => Except.ok dv
               | none => Except.error "list index out of range"
             | none => Except.ok (0 : ℚ)) with
      | .error e => .error e
      | .ok dist =>
        match res.ids.get? i with
        | none => .error "list index out of range"
        | some idv =>
          match buildDocsAux res (i + 1) rest with
          | .error e => .error e
          | .ok rest2 => .ok (.dict d md dist idv :: rest2)

/-- `EnhancedQAModel.retrieve_documents` before its `except` clause. -/
def qaRetrieveCore (storeQuery : String → Nat → Except String QueryResults)
    (query : String) (top_k : Nat) : Except String (List PyDoc) :=
  match storeQuery query top_k with
  | .error e => .error e
  | .ok res => buildDocsAux res 0 res.documents

/-- `EnhancedQAModel.retrieve_documents`: any exception is caught and the
empty document list returned. -/
def qaRetrieveDocuments (storeQuery : String → Nat → Except String QueryResults)
    (query : String) (top_k : Nat) : List PyDoc :=
  match qaRetrieveCore storeQuery query top_k with
  | .ok docs => docs
  | .error _ => []

/-- `EnhancedQAModel.process_query`: retrieve documents (or use the provided
ones; Python `provided_docs or []` maps `None` and `[]` both to `[]`), return
the fixed no-documents result when none are available, otherwise join the
document texts with a blank line and delegate to `answer_question` (default
`top_k = 5`, default `max_answer_length = 100`). -/
def process_query (m : QAModel) (storeQuery : String → Nat → Except String QueryResults)
    (query : String) (use_retrieved_docs : Bool) (provided_docs : Option (List PyDoc)) :
    QAResult :=
  let documents := if use_retrieved_docs then qaRetrieveDocuments storeQuery query 5
    else provided_docs.getD []
  if documents.isEmpty then noDocsResult
  else
    let all_text := documents.map docText
    let combined_text := String.intercalate "\n\n" all_text
    answer_question m query combined_text 100

/-- The `sources` computation of the `/api/query` endpoint (`app.py`,
`query_document`): collect `doc['metadata']['source']` over
`result['source_documents']` when that key is present; the empty list
otherwise. -/
def resultSources (r : QAResult) : List String :=
  match r.source_documents with
  | some docs =>
    docs.foldr (fun d acc =>
      match d with
      | .dict _ md _ _ =>
        match List.lookup "source" md with
        | some s => s :: acc
        | none => acc
      | .str _ => acc) []
  | none => []

/-! ## Concrete collaborators used by witnesses and counterexamples -/

/-- Witness store response: two documents with distances 1/10 and 2/5
(similarities 9/10 and 3/5). -/
def resW1 : QueryResults :=
  ⟨["a", "b"], ["doc a", "doc b"], some [[("source", "x")], [("source", "y")]],
    some [1/10, 2/5]⟩

/-- Witness store: always answers with `resW1`. -/
def storeW1 : String → Nat → Except String QueryResults := fun _ _ => .ok resW1

/-- An empty store: no documents. -/
def storeEmpty : String → Nat → Except String QueryResults := fun _ _ =>
  .ok ⟨[], [], none, none⟩

/-- A model collaborator whose forward pass always raises `e`. -/
def errModel (e : String) : QAModel :=
  ⟨fun _ => [], fun _ => "", fun _ _ => .error e⟩

/-- Constant forward output with exactly one kept candidate: the (0, 1) span,
score `1 + 0 = 1`. -/
def foW : ForwardOut := ⟨[1, 0], [2, 0], [7, 8], [0], [1]⟩

/-- Concrete scoring model: no question tokens, forward output `foW`, every
decode yielding `"the answer"`. -/
def mW : QAModel := ⟨fun _ => [], fun _ => "the answer", fun _ _ => .ok foW⟩

/-- Tokenizer making the token budget 2 (`512 - 507 - 3`) for question `"q"`
while every other string gets 3 tokens. -/
def mTok : QAModel :=
  ⟨fun s => if s = "q" then List.replicate 507 0 else [0, 0, 0],
    fun _ => "", fun _ _ => .error "never"⟩

/-- Store response with one matched chunk whose metadata carries a source. -/
def resC9 : QueryResults :=
  ⟨["d1"], ["contract text here"], some [[("source", "contract.pdf")]], some [0]⟩

/-- Store used by the C9 counterexample. -/
def storeC9 : String → Nat → Except String QueryResults := fun _ _ => .ok resC9

/-! # General lemmas -/

theorem pyStrip_length_le (s : String) : (pyStrip s).length ≤ s.length := by
  have h1 : ∀ (l : List Char), (l.dropWhile Char.isWhitespace).length ≤ l.length := by
    intro l
    exact (List.dropWhile_sublist _).length_le
  calc (pyStrip s).length
      = ((s.data.dropWhile Char.isWhitespace).reverse.dropWhile Char.isWhitespace).reverse.length := rfl
    _ = ((s.data.dropWhile Char.isWhitespace).reverse.dropWhile Char.isWhitespace).length := by
        simp
    _ ≤ (s.data.dropWhile Char.isWhitespace).reverse.length := h1 _
    _ = (s.data.dropWhile Char.isWhitespace).length := by simp
    _ ≤ s.data.length := h1 _
    _ = s.length := rfl

theorem pyStrip_empty : pyStrip "" = "" := rfl

theorem length_insertDesc (x : Match) (l : List Match) :
    (insertDesc x l).length = l.length + 1 := by
  induction l with
  | nil => rfl
  | cons y ys ih =>
    simp only [insertDesc]
    split
    · simp
    · simp [ih]

theorem mem_insertDesc {a x : Match} {l : List Match} :
    a ∈ insertDesc x l ↔ a = x ∨ a ∈ l := by
  induction l with
  | nil => simp [insertDesc]
  | cons y ys ih =>
    simp only [insertDesc]
    split
    · simp [List.mem_cons]
    · simp only [List.mem_cons, ih]
      tauto

theorem pairwise_insertDesc {x : Match} {l : List Match}
    (h : l.Pairwise simGE) : (insertDesc x l).Pairwise simGE := by
  induction l with
  | nil => simp [insertDesc, List.pairwise_cons]
  | cons y ys ih =>
    rw [List.pairwise_cons] at h
    simp only [insertDesc]
    split
    · rename_i hlt
      rw [List.pairwise_cons]
      constructor
      · intro b hb
        rcases List.mem_cons.mp hb with hb | hb
        · subst hb; exact le_of_lt hlt
        · exact le_trans (h.1 b hb) (le_of_lt hlt)
      · exact List.pairwise_cons.mpr h
    · rename_i hge
      rw [List.pairwise_cons]
      constructor
      · intro b hb
        rcases mem_insertDesc.mp hb with hb | hb
        · subst hb; exact le_of_not_lt hge
        · exact h.1 b hb
      · exact ih h.2

theorem filter_insertDesc (c : ℚ) (x : Match) (l : List Match)
    (h : l.Pairwise simGE) :
    (insertDesc x l).filter (fun mm => decide (mm.similarity = c)) =
      (if x.similarity = c then
        l.filter (fun mm => decide (mm.similarity = c)) ++ [x]
       else l.filter (fun mm => decide (mm.similarity = c))) := by
  induction l with
  | nil =>
    simp only [insertDesc, List.filter]
    split <;> simp_all
  | cons y ys ih =>
    rw [List.pairwise_cons] at h
    simp only [insertDesc]
    split
    · rename_i hlt
      by_cases hxc : x.similarity = c
      · have hnil : (y :: ys).filter (fun mm => decide (mm.similarity = c)) = [] := by
          rw [List.filter_eq_nil_iff]
          intro b hb
          have hble : b.similarity ≤ y.similarity := by
            rcases List.mem_cons.mp hb with hb | hb
            · subst hb; exact le_refl _
            · exact h.1 b hb
          have hblt : b.similarity < c := lt_of_le_of_lt hble (hxc ▸ hlt)
          simp [ne_of_lt hblt]
        rw [if_pos hxc]
        simp [List.filter_cons, hxc, hnil]
      · rw [if_neg hxc]
        simp [List.filter_cons, hxc]
    · rename_i hge
      have ihh := ih h.2
      by_cases hxc : x.similarity = c <;> by_cases hyc : y.similarity = c <;>
        simp [List.filter_cons, hxc, hyc, ihh]

theorem sortDesc_inv (l : List Match) (acc : List Match) (hacc : acc.Pairwise simGE) :
    (l.foldl (fun a x => insertDesc x a) acc).length = acc.length + l.length ∧
    (∀ a, a ∈ l.foldl (fun a x => insertDesc x a) acc ↔ a ∈ acc ∨ a ∈ l) ∧
    (l.foldl (fun a x => insertDesc x a) acc).Pairwise simGE ∧
    (∀ c : ℚ,
      (l.foldl (fun a x => insertDesc x a) acc).filter (fun mm => decide (mm.similarity = c)) =
        acc.filter (fun mm => decide (mm.similarity = c)) ++
          l.filter (fun mm => decide (mm.similarity = c))) := by
  induction l generalizing acc with
  | nil => simp [hacc]
  | cons x xs ih =>
    have hacc' : (insertDesc x acc).Pairwise simGE := pairwise_insertDesc hacc
    obtain ⟨ihlen, ihmem, ihpw, ihfil⟩ := ih (insertDesc x acc) hacc'
    refine ⟨?_, ?_, ihpw, ?_⟩
    · simp only [List.foldl_cons, ihlen, length_insertDesc, List.length_cons]
      omega
    · intro a
      simp only [List.foldl_cons, ihmem a, mem_insertDesc, List.mem_cons]
      tauto
    · intro c
      simp only [List.foldl_cons, ihfil c, filter_insertDesc c x acc hacc]
      by_cases hxc : x.similarity = c
      · simp [hxc, List.filter_cons]
      · simp [hxc, List.filter_cons]

theorem sortDesc_length (l : List Match) : (sortDesc l).length = l.length := by
  simpa using (sortDesc_inv l [] (by simp)).1

theorem sortDesc_mem (l : List Match) (a : Match) : a ∈ sortDesc l ↔ a ∈ l := by
  simpa using (sortDesc_inv l [] (by simp)).2.1 a

theorem sortDesc_pairwise (l : List Match) : (sortDesc l).Pairwise simGE :=
  (sortDesc_inv l [] (by simp)).2.2.1

theorem sortDesc_stable (l : List Match) (c : ℚ) :
    (sortDesc l).filter (fun mm => decide (mm.similarity = c)) =
      l.filter (fun mm => decide (mm.similarity = c)) := by
  simpa using (sortDesc_inv l [] (by simp)).2.2.2 c

theorem buildMatchesAux_spec (res : QueryResults) (thr : ℚ) (ds : List ℚ)
    (hd : res.distances = some ds) :
    ∀ (ids0 : List String) (i : Nat) (ms : List Match),
      i + ids0.length ≤ ds.length →
      buildMatchesAux res thr i ids0 = .ok ms →
      (∀ m ∈ ms, thr ≤ m.similarity) ∧ ms.length ≤ ids0.length := by
  intro ids0
  induction ids0 with
  | nil =>
    intro i ms _ hok
    simp only [buildMatchesAux] at hok
    cases hok
    simp
  | cons docId rest ih =>
    intro i ms hbound hok
    have hi : i < ds.length := by
      simp only [List.length_cons] at hbound
      omega
    have hbound' : i + 1 + rest.length ≤ ds.length := by
      simp only [List.length_cons] at hbound
      omega
    simp only [buildMatchesAux] at hok
    by_cases hskip : skipAt res thr i
    · rw [if_pos hskip] at hok
      obtain ⟨h1, h2⟩ := ih (i + 1) ms hbound' hok
      exact ⟨h1, by simp only [List.length_cons]; omega⟩
    · rw [if_neg hskip] at hok
      obtain ⟨d, hdi⟩ : ∃ d, ds.get? i = some d := ⟨ds.get ⟨i, hi⟩, List.get?_eq_get hi⟩
      have hsim : simAt res i = some (1 - d) := by
        simp only [simAt, hd, hdi]
      have hthr : thr ≤ 1 - d := by
        simp only [skipAt, hsim, decide_eq_true_eq] at hskip
        exact le_of_not_lt (by simpa using hskip)
      cases hdoc : res.documents.get? i with
      | none => rw [hdoc] at hok; cases hok
      | some dt =>
        rw [hdoc] at hok
        cases hrest : buildMatchesAux res thr (i + 1) rest with
        | error e => rw [hrest] at hok; cases hok
        | ok ms' =>
          rw [hrest] at hok
          simp only [Except.ok.injEq] at hok
          obtain ⟨h1, h2⟩ := ih (i + 1) ms' hbound' hrest
          subst hok
          refine ⟨?_, by simp only [List.length_cons]; omega⟩
          intro m hm
          rcases List.mem_cons.mp hm with hm | hm
          · subst hm
            simp only [hsim, Option.getD_some]
            exact hthr
          · exact h1 m hm

theorem retrieveUnsorted_spec (storeQuery : String → Nat → Except String QueryResults)
    (query : String) (top_k : Nat) (thr : ℚ) (res : QueryResults) (ds : List ℚ)
    (hq : storeQuery query top_k = .ok res)
    (hk : res.ids.length ≤ top_k)
    (hd : res.distances = some ds)
    (hdl : res.ids.length ≤ ds.length) :
    (∀ mm ∈ (retrieveUnsorted storeQuery query top_k thr).matchList, thr ≤ mm.similarity) ∧
    (retrieveUnsorted storeQuery query top_k thr).matchList.length ≤ top_k := by
  unfold retrieveUnsorted
  by_cases hq0 : query = ""
  · simp [hq0]
  · rw [if_neg hq0, hq]
    by_cases hde : res.documents.isEmpty
    · simp [hde]
    · simp only [hde, Bool.false_eq_true, if_false]
      cases hbm : buildMatchesAux res thr 0 res.ids with
      | error e => simp
      | ok ms =>
        obtain ⟨h1, h2⟩ := buildMatchesAux_spec res thr ds hd res.ids 0 ms (by omega) hbm
        exact ⟨h1, le_trans h2 hk⟩

/-- C1: for every query, `top_k` and threshold (under the store contract that
`collection.query` answers with parallel arrays of at most `top_k` entries,
distances included), every returned match has `similarity ≥
similarity_threshold`, at most `top_k` matches are returned, and they are
sorted by similarity descending, ties keeping the store's return order (the
filtered result list is, for every similarity value, the same subsequence as
before sorting). -/
theorem retrieve_documents_c1 (storeQuery : String → Nat → Except String QueryResults)
    (query : String) (top_k : Nat) (thr : ℚ) (res : QueryResults) (ds : List ℚ)
    (hq : storeQuery query top_k = .ok res)
    (hk : res.ids.length ≤ top_k)
    (hd : res.distances = some ds)
    (hdl : res.ids.length ≤ ds.length) :
    (∀ mm ∈ (retrieve_documents storeQuery query top_k thr).matchList, thr ≤ mm.similarity) ∧
    (retrieve_documents storeQuery query top_k thr).matchList.length ≤ top_k ∧
    (retrieve_documents storeQuery query top_k thr).matchList.Pairwise simGE ∧
    (∀ c : ℚ,
      (retrieve_documents storeQuery query top_k thr).matchList.filter
          (fun mm => decide (mm.similarity = c)) =
        (retrieveUnsorted storeQuery query top_k thr).matchList.filter
          (fun mm => decide (mm.similarity = c))) := by
  obtain ⟨h1, h2⟩ := retrieveUnsorted_spec storeQuery query top_k thr res ds hq hk hd hdl
  have hrd : (retrieve_documents storeQuery query top_k thr).matchList =
      sortDesc (retrieveUnsorted storeQuery query top_k thr).matchList := rfl
  refine ⟨?_, ?_, ?_, ?_⟩
  · intro mm hmm
    rw [hrd] at hmm
    exact h1 mm ((sortDesc_mem _ mm).mp hmm)
  · rw [hrd, sortDesc_length]
    exact h2
  · rw [hrd]
    exact sortDesc_pairwise _
  · intro c
    rw [hrd]
    exact sortDesc_stable _ c

theorem retrieve_documents_c1_witness :
    (storeW1 "contract" 5 = .ok resW1 ∧ resW1.ids.length ≤ 5 ∧
      resW1.distances = some [1/10, 2/5] ∧ resW1.ids.length ≤ ([1/10, 2/5] : List ℚ).length) ∧
    ((∀ mm ∈ (retrieve_documents storeW1 "contract" 5 (7/10)).matchList,
        (7 : ℚ)/10 ≤ mm.similarity) ∧
      (retrieve_documents storeW1 "contract" 5 (7/10)).matchList.length ≤ 5 ∧
      (retrieve_documents storeW1 "contract" 5 (7/10)).matchList.Pairwise simGE ∧
      (∀ c : ℚ,
        (retrieve_documents storeW1 "contract" 5 (7/10)).matchList.filter
            (fun mm => decide (mm.similarity = c)) =
          (retrieveUnsorted storeW1 "contract" 5 (7/10)).matchList.filter
            (fun mm => decide (mm.similarity = c)))) :=
  ⟨⟨rfl, by decide, rfl, by decide⟩,
    retrieve_documents_c1 storeW1 "contract" 5 (7/10) resW1 [1/10, 2/5]
      rfl (by decide) rfl (by decide)⟩

theorem filter_ne_then_eq (v : String) (l : List Chunk) :
    (l.filter (fun ch => ch.id != v)).filter (fun ch => ch.id == v) = [] := by
  rw [List.filter_filter, List.filter_eq_nil_iff]
  intro ch _
  by_cases h : ch.id = v <;> simp [h]

/-- C2: calling `upsert_embeddings` twice with the same id leaves exactly one
stored chunk under that id, carrying the text and metadata of the later call.
The store's `add` is spec-modelled (upsert semantics, §4.1/§3). -/
theorem upsert_embeddings_c2 (store : List Chunk) (idv t1 t2 : String)
    (md1 md2 : Metadata) :
    ((upsert_embeddings (upsert_embeddings store [t1] (some [md1]) (some [idv])).1
        [t2] (some [md2]) (some [idv])).1).filter (fun ch => ch.id == idv) =
      [⟨idv, t2, md2⟩] := by
  have h1 : (upsert_embeddings store [t1] (some [md1]) (some [idv])).1 =
      store.filter (fun ch => ch.id != idv) ++ [⟨idv, t1, md1⟩] := by
    simp [upsert_embeddings, collectionAdd]
  have h2 : (upsert_embeddings (upsert_embeddings store [t1] (some [md1]) (some [idv])).1
      [t2] (some [md2]) (some [idv])).1 =
      ((upsert_embeddings store [t1] (some [md1]) (some [idv])).1).filter
          (fun ch => ch.id != idv) ++ [⟨idv, t2, md2⟩] := by
    simp [upsert_embeddings, collectionAdd]
  rw [h2, h1]
  simp only [List.filter_append]
  rw [filter_ne_then_eq, filter_ne_then_eq]
  simp

/-- C7: on a context that is empty or shorter than 5 characters,
`answer_question` returns the fixed no-context result (`has_answer = false`,
`confidence = 0`), for every question, every `max_answer_length` and every
model collaborator `m` — the result does not depend on `m`, so neither the
chunking nor the scoring steps influence it. -/
theorem answer_question_c7 (m : QAModel) (question context : String) (mal : Nat)
    (h : context.length < 5) :
    answer_question m question context mal = noContextResult := by
  have hstrip : (pyStrip context).length < 5 :=
    lt_of_le_of_lt (pyStrip_length_le context) h
  unfold answer_question answerQuestionCore
  rw [if_pos (Or.inr hstrip)]

theorem answer_question_c7_witness :
    ("ab" : String).length < 5 ∧
    answer_question mW "what is a contract?" "ab" 100 = noContextResult :=
  ⟨by decide, answer_question_c7 mW "what is a contract?" "ab" 100 (by decide)⟩

/-- C8: the empty query short-circuits `retrieve_documents` to the empty
match list with no error marker, for every store collaborator (the result does
not depend on `storeQuery`, so no store call is made), every `top_k` and
every threshold. -/
theorem retrieve_documents_c8 (storeQuery : String → Nat → Except String QueryResults)
    (top_k : Nat) (thr : ℚ) :
    retrieve_documents storeQuery "" top_k thr = ⟨[], none⟩ := rfl

/-- C4: when no chunks are available — retrieval returned the empty list, or
`use_retrieved_docs` is false and `provided_docs` is `None` or empty —
`process_query` returns the fixed no-relevant-documents result
(`has_answer = false`, `confidence = 0`), for every model collaborator `m`;
the result does not depend on `m`, so `answer_question` is never invoked. -/
theorem process_query_c4 (m : QAModel)
    (storeQuery : String → Nat → Except String QueryResults)
    (query : String) (u : Bool) (p : Option (List PyDoc))
    (h : (if u then qaRetrieveDocuments storeQuery query 5 else p.getD []) = []) :
    process_query m storeQuery query u p = noDocsResult := by
  unfold process_query
  rw [h]
  rfl

theorem process_query_c4_witness :
    (if true then qaRetrieveDocuments storeEmpty "what is a contract?" 5
      else (none : Option (List PyDoc)).getD []) = [] ∧
    process_query mW storeEmpty "what is a contract?" true none = noDocsResult :=
  ⟨rfl, process_query_c4 mW storeEmpty "what is a contract?" true none rfl⟩

theorem pyStrip_ne_empty {p : String} (h : (pyStrip p).isEmpty = false) : p ≠ "" := by
  intro hp
  subst hp
  have ht : (pyStrip "").isEmpty = true := rfl
  rw [ht] at h
  exact Bool.noConfusion h

theorem fold_blank (m : QAModel) (B : Int) :
    ∀ (ps : List String) (st : ChunkState),
      (∀ p ∈ ps, (pyStrip p).isEmpty = true) →
      ps.foldl (stepParagraph m B) st = st := by
  intro ps
  induction ps with
  | nil => intro st _; rfl
  | cons p rest ih =>
    intro st hall
    have hp : (pyStrip p).isEmpty = true := hall p (by simp)
    have hstep : stepParagraph m B st p = st := by
      simp [stepParagraph, hp]
    simp only [List.foldl_cons, hstep]
    exact ih st (fun q hq => hall q (by simp [hq]))

theorem stepParagraph_fold_inv (m : QAModel) (B : Int) :
    ∀ (ps : List String) (st : ChunkState),
      (∀ pr ∈ st.chunks, pr.2 ≤ B) →
      st.current_length ≤ B →
      (st.current_chunk = "" → st.current_length = 0) →
      (∀ p ∈ ps, (pyStrip p).isEmpty = false → ((m.encode p).length : Int) ≤ B) →
      (∀ pr ∈ (ps.foldl (stepParagraph m B) st).chunks, pr.2 ≤ B) ∧
      (ps.foldl (stepParagraph m B) st).current_length ≤ B ∧
      ((ps.foldl (stepParagraph m B) st).current_chunk = "" →
        (ps.foldl (stepParagraph m B) st).current_length = 0) := by
  intro ps
  induction ps with
  | nil =>
    intro st h1 h2 h3 _
    exact ⟨h1, h2, h3⟩
  | cons p rest ih =>
    intro st h1 h2 h3 hps
    simp only [List.foldl_cons]
    have hrest : ∀ q ∈ rest, (pyStrip q).isEmpty = false → ((m.encode q).length : Int) ≤ B :=
      fun q hq => hps q (by simp [hq])
    by_cases hblank : (pyStrip p).isEmpty
    · have hstep : stepParagraph m B st p = st := by simp [stepParagraph, hblank]
      rw [hstep]
      exact ih st h1 h2 h3 hrest
    · have hblank' : (pyStrip p).isEmpty = false := by
        simpa using hblank
      have hpfit : ((m.encode p).length : Int) ≤ B := hps p (by simp) hblank'
      have hpne : p ≠ "" := pyStrip_ne_empty hblank'
      by_cases hcond : st.current_length + ((m.encode p).length : Int) > B ∧
          st.current_chunk ≠ ""
      · have hstep : stepParagraph m B st p =
            ⟨st.chunks ++ [(st.current_chunk, st.current_length)], p,
              ((m.encode p).length : Int)⟩ := by
          simp only [stepParagraph, hblank', Bool.false_eq_true, if_false]
          rw [if_pos hcond]
        rw [hstep]
        apply ih
        · intro pr hpr
          rcases List.mem_append.mp hpr with hpr | hpr
          · exact h1 pr hpr
          · simp only [List.mem_singleton] at hpr
            subst hpr
            exact h2
        · exact hpfit
        · intro hc
          exact absurd hc hpne
        · exact hrest
      · have hstep : stepParagraph m B st p =
            ⟨st.chunks,
              if st.current_chunk ≠ "" then st.current_chunk ++ "\n" ++ p else p,
              st.current_length + ((m.encode p).length : Int)⟩ := by
          simp only [stepParagraph, hblank', Bool.false_eq_true, if_false]
          rw [if_neg hcond]
        rw [hstep]
        have hlen : st.current_length + ((m.encode p).length : Int) ≤ B := by
          rcases not_and_or.mp hcond with hc | hc
          · omega
          · have hcur : st.current_chunk = "" := not_not.mp hc
            have h0 := h3 hcur
            omega
        apply ih
        · exact h1
        · exact hlen
        · intro hc
          exfalso
          by_cases hne : st.current_chunk ≠ ""
          · rw [if_pos hne] at hc
            have hl0 : (st.current_chunk ++ "\n" ++ p).length = ("" : String).length :=
              congrArg String.length hc
            rw [String.length_append, String.length_append] at hl0
            have h1n : ("\n" : String).length = 1 := rfl
            have h00 : ("" : String).length = 0 := rfl
            rw [h1n, h00] at hl0
            omega
          · rw [if_neg hne] at hc
            exact hpne hc
        · exact hrest

/-- C5 (amended): provided every non-blank paragraph of the context has a
token count within the budget `512 - question_tokens - 3`, every chunk
produced by the paragraph-boundary partition has its accounted token count
(the sum of its paragraphs' token counts, which is what the loop tracks as
`current_length`) within that budget; a chunk is flushed and a new one started
when adding the next paragraph would overflow and the current chunk is
non-empty.  The proviso is forced: a single oversized paragraph is kept as a
chunk that exceeds the budget (see the counterexample). -/
theorem contextChunksAcc_c5 (m : QAModel) (question context : String)
    (hpar : ∀ p ∈ pySplitNl context, (pyStrip p).isEmpty = false →
      ((m.encode p).length : Int) ≤ maxContextTokens m question) :
    ∀ pr ∈ contextChunksAcc m question context, pr.2 ≤ maxContextTokens m question := by
  intro pr hpr
  by_cases hall : ∀ p ∈ pySplitNl context, (pyStrip p).isEmpty = true
  · have hfold := fold_blank m (maxContextTokens m question) (pySplitNl context)
      ⟨[], "", 0⟩ hall
    unfold contextChunksAcc at hpr
    simp only [hfold] at hpr
    simp at hpr
  · push_neg at hall
    obtain ⟨p0, hp0mem, hp0⟩ := hall
    have hp0f : (pyStrip p0).isEmpty = false := by
      simpa using hp0
    have hB : (0 : Int) ≤ maxContextTokens m question :=
      le_trans (Int.natCast_nonneg _) (hpar p0 hp0mem hp0f)
    obtain ⟨hinv1, hinv2, hinv3⟩ := stepParagraph_fold_inv m (maxContextTokens m question)
      (pySplitNl context) ⟨[], "", 0⟩ (by simp) hB (fun _ => rfl) hpar
    unfold contextChunksAcc at hpr
    by_cases hcur : ((pySplitNl context).foldl (stepParagraph m (maxContextTokens m question))
        ⟨[], "", 0⟩).current_chunk ≠ ""
    · rw [if_pos hcur] at hpr
      rcases List.mem_append.mp hpr with h | h
      · exact hinv1 pr h
      · simp only [List.mem_singleton] at h
        subst h
        exact hinv2
    · rw [if_neg hcur] at hpr
      exact hinv1 pr hpr

set_option maxRecDepth 8000 in
theorem contextChunksAcc_c5_counterexample :
    contextChunksAcc mTok "q" "hello" = [("hello", 3)] ∧
    maxContextTokens mTok "q" = 2 ∧ ¬ ((3 : Int) ≤ 2) := by
  refine ⟨by decide, by decide, by decide⟩

theorem contextChunksAcc_c5_witness :
    (∀ p ∈ pySplitNl "hello\nworld", (pyStrip p).isEmpty = false →
      ((mW.encode p).length : Int) ≤ maxContextTokens mW "q") ∧
    (∀ pr ∈ contextChunksAcc mW "q" "hello\nworld", pr.2 ≤ maxContextTokens mW "q") :=
  ⟨by decide, contextChunksAcc_c5 mW "q" "hello\nworld" (by decide)⟩

instance exceptDecEq {e a : Type} [DecidableEq e] [DecidableEq a] : DecidableEq (Except e a) :=
  fun x y =>
    match x, y with
    | .ok u, .ok v =>
      if h : u = v then .isTrue (by rw [h]) else .isFalse (fun hh => h (Except.ok.inj hh))
    | .error u, .error v =>
      if h : u = v then .isTrue (by rw [h]) else .isFalse (fun hh => h (Except.error.inj hh))
    | .ok _, .error _ => .isFalse (fun hh => Except.noConfusion hh)
    | .error _, .ok _ => .isFalse (fun hh => Except.noConfusion hh)

theorem bestOf_some_isSome (b : ℚ × String) (l : List (ℚ × String)) :
    ∃ r, bestOf (some b) l = some r := by
  induction l generalizing b with
  | nil => exact ⟨b, rfl⟩
  | cons c rest ih =>
    simp only [bestOf]
    by_cases hlt : b.1 < c.1
    · rw [if_pos hlt]
      exact ih c
    · rw [if_neg hlt]
      exact ih b

theorem bestOf_spec (l : List (ℚ × String)) (b : Option (ℚ × String)) (r : ℚ × String)
    (h : bestOf b l = some r) :
    (r ∈ l ∨ b = some r) ∧ (∀ p ∈ l, p.1 ≤ r.1) ∧ (∀ q, b = some q → q.1 ≤ r.1) := by
  induction l generalizing b with
  | nil =>
    simp only [bestOf] at h
    refine ⟨Or.inr h, by simp, ?_⟩
    intro q hq
    rw [hq] at h
    simp only [Option.some.injEq] at h
    rw [h]
  | cons c rest ih =>
    cases b with
    | none =>
      simp only [bestOf] at h
      obtain ⟨hmem, hmax, hinit⟩ := ih (some c) h
      have hcr : c.1 ≤ r.1 := hinit c rfl
      refine ⟨?_, ?_, ?_⟩
      · rcases hmem with hm | hm
        · exact Or.inl (List.mem_cons_of_mem _ hm)
        · simp only [Option.some.injEq] at hm
          exact Or.inl (hm ▸ List.mem_cons_self _ _)
      · intro p hp
        rcases List.mem_cons.mp hp with hp | hp
        · rw [hp]; exact hcr
        · exact hmax p hp
      · intro q hq
        cases hq
    | some bb =>
      simp only [bestOf] at h
      by_cases hlt : bb.1 < c.1
      · rw [if_pos hlt] at h
        obtain ⟨hmem, hmax, hinit⟩ := ih (some c) h
        have hcr : c.1 ≤ r.1 := hinit c rfl
        refine ⟨?_, ?_, ?_⟩
        · rcases hmem with hm | hm
          · exact Or.inl (List.mem_cons_of_mem _ hm)
          · simp only [Option.some.injEq] at hm
            exact Or.inl (hm ▸ List.mem_cons_self _ _)
        · intro p hp
          rcases List.mem_cons.mp hp with hp | hp
          · rw [hp]; exact hcr
          · exact hmax p hp
        · intro q hq
          simp only [Option.some.injEq] at hq
          subst hq
          exact le_trans (le_of_lt hlt) hcr
      · rw [if_neg hlt] at h
        obtain ⟨hmem, hmax, hinit⟩ := ih (some bb) h
        have hbr : bb.1 ≤ r.1 := hinit bb rfl
        refine ⟨?_, ?_, ?_⟩
        · rcases hmem with hm | hm
          · exact Or.inl (List.mem_cons_of_mem _ hm)
          · exact Or.inr hm
        · intro p hp
          rcases List.mem_cons.mp hp with hp | hp
          · rw [hp]
            exact le_trans (le_of_not_lt hlt) hbr
          · exact hmax p hp
        · intro q hq
          simp only [Option.some.injEq] at hq
          subst hq
          exact hbr

theorem strip_five_guard {context : String} (hlen : 5 ≤ (pyStrip context).length) :
    ¬(context = "" ∨ (pyStrip context).length < 5) := by
  rintro (h0 | h5)
  · subst h0
    have h0l : (pyStrip "").length = 0 := rfl
    omega
  · omega

/-- C3 (amended): for every question and every context whose *stripped* length
is at least 5 (the source guards on `len(context.strip()) < 5`, not on the raw
length — see the counterexample), when the candidate enumeration succeeds:
if no valid candidate span exists in any chunk, `answer_question` returns the
fixed no-answer result (`has_answer = false`, `confidence = 0`); otherwise it
returns `has_answer = true`, its confidence is the global maximum of the
candidate scores across all chunks, and (confidence, answer) is one of the
candidates. -/
theorem answer_question_c3 (m : QAModel) (question context : String) (mal : Nat)
    (cands : List (ℚ × String))
    (hlen : 5 ≤ (pyStrip context).length)
    (hc : allCandidatesOf m question context mal = .ok cands) :
    (cands = [] → answer_question m question context mal = noAnswerResult) ∧
    (cands ≠ [] →
      (answer_question m question context mal).has_answer = true ∧
      ((answer_question m question context mal).confidence,
        (answer_question m question context mal).answer) ∈ cands ∧
      ∀ p ∈ cands, p.1 ≤ (answer_question m question context mal).confidence) := by
  have hne := strip_five_guard hlen
  have hCore : answerQuestionCore m question context mal =
      (match bestOf none cands with
        | some bp => Except.ok (⟨bp.2, bp.1, true, none⟩ : QAResult)
        | none => Except.ok noAnswerResult) := by
    unfold answerQuestionCore
    rw [if_neg hne, hc]
  constructor
  · intro hnil
    subst hnil
    have hCore2 : answerQuestionCore m question context mal = .ok noAnswerResult := hCore
    unfold answer_question
    rw [hCore2]
  · intro hnonnil
    cases cands with
    | nil => exact absurd rfl hnonnil
    | cons c0 crest =>
      have hsome : ∃ r, bestOf none (c0 :: crest) = some r := by
        simp only [bestOf]
        exact bestOf_some_isSome c0 crest
      obtain ⟨r, hr⟩ := hsome
      rw [hr] at hCore
      have hCore2 : answerQuestionCore m question context mal =
          .ok (⟨r.2, r.1, true, none⟩ : QAResult) := hCore
      have hAQ : answer_question m question context mal =
          (⟨r.2, r.1, true, none⟩ : QAResult) := by
        unfold answer_question
        rw [hCore2]
      obtain ⟨hmem, hmax, _⟩ := bestOf_spec (c0 :: crest) none r hr
      have hmem2 : r ∈ c0 :: crest := by
        rcases hmem with h | h
        · exact h
        · cases h
      rw [hAQ]
      exact ⟨rfl, by simpa using hmem2, hmax⟩

theorem answer_question_c3_witness :
    (5 ≤ (pyStrip "hello world").length ∧
      allCandidatesOf mW "q" "hello world" 100 = .ok [(1 + 0, "the answer")]) ∧
    ((answer_question mW "q" "hello world" 100).has_answer = true ∧
      ((answer_question mW "q" "hello world" 100).confidence,
        (answer_question mW "q" "hello world" 100).answer) ∈
          [((1 : ℚ) + 0, "the answer")] ∧
      ∀ p ∈ [((1 : ℚ) + 0, "the answer")],
        p.1 ≤ (answer_question mW "q" "hello world" 100).confidence) :=
  ⟨⟨by decide, rfl⟩,
    (answer_question_c3 mW "q" "hello world" 100 [(1 + 0, "the answer")]
      (by decide) rfl).2 (by simp)⟩

theorem answer_question_c3_counterexample :
    String.length " aaa " = 5 ∧
    allCandidatesOf mW "q" " aaa " 100 = .ok [(1 + 0, "the answer")] ∧
    answer_question mW "q" " aaa " 100 = noContextResult ∧
    noContextResult.has_answer = false :=
  ⟨by decide, rfl, by decide, rfl⟩

/-- C6: neither pipeline operation propagates a collaborator exception.  When
the store's `query` raises, `retrieve_documents` returns the empty match list
together with the error marker; when the scoring model's forward pass raises,
`answer_question` returns `has_answer = false` with the error message embedded
in the answer field.  (In the embedding an uncaught exception would be an
`Except.error` result type; both functions are total and return plain result
values.) -/
theorem pipeline_soft_errors_c6 (q1 : String) (k : Nat) (thr : ℚ) (e1 : String)
    (question context : String) (mal : Nat) (e2 : String) (chs : List String)
    (hq : q1 ≠ "")
    (hctx : 5 ≤ (pyStrip context).length)
    (hch : contextChunks (errModel e2) question context = .ok chs)
    (hne : chs ≠ []) :
    retrieve_documents (fun _ _ => .error e1) q1 k thr = ⟨[], some e1⟩ ∧
    answer_question (errModel e2) question context mal = errorAnswerResult e2 := by
  constructor
  · unfold retrieve_documents retrieveUnsorted
    rw [if_neg hq]
    rfl
  · have hneor := strip_five_guard hctx
    have hall : allCandidatesOf (errModel e2) question context mal = .error e2 := by
      unfold allCandidatesOf
      rw [hch]
      cases chs with
      | nil => exact absurd rfl hne
      | cons c rest => rfl
    unfold answer_question answerQuestionCore
    rw [if_neg hneor, hall]

theorem pipeline_soft_errors_c6_witness :
    (("hi" : String) ≠ "" ∧ 5 ≤ (pyStrip "hello there").length ∧
      contextChunks (errModel "bang") "q" "hello there" = .ok ["hello there"] ∧
      (["hello there"] : List String) ≠ []) ∧
    (retrieve_documents (fun _ _ => .error "boom") "hi" 5 (7/10) = ⟨[], some "boom"⟩ ∧
      answer_question (errModel "bang") "q" "hello there" 100 = errorAnswerResult "bang") :=
  ⟨⟨by decide, by decide, by decide, by decide⟩,
    pipeline_soft_errors_c6 "hi" 5 (7/10) "boom" "q" "hello there" 100 "bang"
      ["hello there"] (by decide) (by decide) (by decide) (by decide)⟩

theorem answer_question_src_none (m : QAModel) (question context : String) (mal : Nat) :
    (answer_question m question context mal).source_documents = none := by
  cases hc : answerQuestionCore m question context mal with
  | error e =>
    unfold answer_question
    rw [hc]
    rfl
  | ok r =>
    have hr : r.source_documents = none := by
      unfold answerQuestionCore at hc
      by_cases hg : context = "" ∨ (pyStrip context).length < 5
      · rw [if_pos hg] at hc
        simp only [Except.ok.injEq] at hc
        subst hc
        rfl
      · rw [if_neg hg] at hc
        cases hac : allCandidatesOf m question context mal with
        | error e =>
          rw [hac] at hc
          cases hc
        | ok cands =>
          rw [hac] at hc
          have hc2 : (match bestOf none cands with
              | some bp => Except.ok (⟨bp.2, bp.1, true, none⟩ : QAResult)
              | none => Except.ok noAnswerResult) = Except.ok r := hc
          cases hb : bestOf none cands with
          | some bp =>
            rw [hb] at hc2
            simp only [Except.ok.injEq] at hc2
            subst hc2
            rfl
          | none =>
            rw [hb] at hc2
            simp only [Except.ok.injEq] at hc2
            subst hc2
            rfl
    unfold answer_question
    rw [hc]
    exact hr

/-- C9 (amended): the result of `process_query` carries the `answer`,
`confidence` and `has_answer` fields but never a `source_documents` key, so
the `sources` list computed by the `/api/query` endpoint is always empty —
the source identifiers of the matched chunks are not attached. -/
theorem process_query_c9 (m : QAModel)
    (storeQuery : String → Nat → Except String QueryResults)
    (query : String) (u : Bool) (p : Option (List PyDoc)) :
    (process_query m storeQuery query u p).source_documents = none ∧
    resultSources (process_query m storeQuery query u p) = [] := by
  have h1 : (process_query m storeQuery query u p).source_documents = none := by
    simp only [process_query]
    by_cases hd : (if u then qaRetrieveDocuments storeQuery query 5 else p.getD []).isEmpty
    · rw [if_pos hd]
      rfl
    · rw [if_neg hd]
      exact answer_question_src_none m query _ 100
  refine ⟨h1, ?_⟩
  unfold resultSources
  rw [h1]

theorem process_query_c9_counterexample :
    qaRetrieveDocuments storeC9 "what" 5 =
      [PyDoc.dict "contract text here" [("source", "contract.pdf")] 0 "d1"] ∧
    (process_query mW storeC9 "what" true none).has_answer = true ∧
    (process_query mW storeC9 "what" true none).source_documents = none ∧
    resultSources (process_query mW storeC9 "what" true none) = [] :=
  ⟨rfl, rfl, rfl, rfl⟩

theorem answer_question_conf_zero (m : QAModel) (question context : String) (mal : Nat)
    (h : (answer_question m question context mal).has_answer = false) :
    (answer_question m question context mal).confidence = 0 := by
  cases hc : answerQuestionCore m question context mal with
  | error e =>
    unfold answer_question
    rw [hc]
    rfl
  | ok r =>
    have hr : r.has_answer = false → r.confidence = 0 := by
      unfold answerQuestionCore at hc
      by_cases hg : context = "" ∨ (pyStrip context).length < 5
      · rw [if_pos hg] at hc
        simp only [Except.ok.injEq] at hc
        subst hc
        intro _
        rfl
      · rw [if_neg hg] at hc
        cases hac : allCandidatesOf m question context mal with
        | error e =>
          rw [hac] at hc
          cases hc
        | ok cands =>
          rw [hac] at hc
          have hc2 : (match bestOf none cands with
              | some bp => Except.ok (⟨bp.2, bp.1, true, none⟩ : QAResult)
              | none => Except.ok noAnswerResult) = Except.ok r := hc
          cases hb : bestOf none cands with
          | some bp =>
            rw [hb] at hc2
            simp only [Except.ok.injEq] at hc2
            subst hc2
            intro hfalse
            exact Bool.noConfusion hfalse
          | none =>
            rw [hb] at hc2
            simp only [Except.ok.injEq] at hc2
            subst hc2
            intro _
            rfl
    have hh : answer_question m question context mal = r := by
      unfold answer_question
      rw [hc]
    rw [hh] at h ⊢
    exact hr h

/-- C10: every result of `answer_question` or `process_query` with
`has_answer = false` has `confidence` exactly `0` — this covers the
short-context branch, the no-valid-span branch, the no-documents branch and
the error branches; the internal negative-infinity sentinel of the span
search (modelled as the `none` start state of `bestOf`) never reaches a
returned result. -/
theorem results_c10 (m : QAModel)
    (storeQuery : String → Nat → Except String QueryResults)
    (question context query : String) (mal : Nat) (u : Bool)
    (p : Option (List PyDoc)) :
    ((answer_question m question context mal).has_answer = false →
      (answer_question m question context mal).confidence = 0) ∧
    ((process_query m storeQuery query u p).has_answer = false →
      (process_query m storeQuery query u p).confidence = 0) := by
  refine ⟨answer_question_conf_zero m question context mal, ?_⟩
  intro h
  simp only [process_query] at h ⊢
  by_cases hd : (if u then qaRetrieveDocuments storeQuery query 5 else p.getD []).isEmpty
  · rw [if_pos hd]
    rfl
  · rw [if_neg hd] at h ⊢
    exact answer_question_conf_zero m query _ 100 h

theorem results_c10_witness :
    (answer_question mW "q" "ab" 100).confidence = 0 ∧
    (process_query mW storeEmpty "q" true none).confidence = 0 :=
  ⟨(results_c10 mW storeEmpty "q" "ab" "q" 100 true none).1 rfl,
    (results_c10 mW storeEmpty "q" "ab" "q" 100 true none).2 rfl⟩
